import Mathlib

/-!
Verification of the range-serving layer of the `zipstream` gateway.

The definitions below are a shallow embedding of `src/serve_range.rs` and
`src/main.rs`.  Rust `u64` values are embedded as `Nat` (with the `2 ^ 64`
bound made explicit where arithmetic could leave the `u64` domain), `&str`
values as `String` operating on their character lists, and fallible results
as `Except` / `Option`.
-/

namespace Zipstream

/-- Modelled from the spec: the `Range` value type of `stream_range.rs`
(a file that is not part of `src/`): a half-open byte interval `[start, end)`
with `u64` endpoints. -/
structure Range where
  start : Nat
  «end» : Nat
deriving DecidableEq, Repr

/-- Modelled from the spec: `Range::len` of `stream_range.rs`; the length of a
half-open interval is `end - start`. -/
def Range.len (r : Range) : Nat := r.«end» - r.start

/-- Rust `char::is_whitespace` (the Unicode `White_Space` property), the
predicate used by `str::trim` inside `parse_range`. -/
def isRustWhitespace (c : Char) : Bool :=
  let n := c.toNat
  (decide (9 ≤ n) && decide (n ≤ 13)) || decide (n = 32) || decide (n = 0x85) ||
    decide (n = 0xA0) || decide (n = 0x1680) ||
    (decide (0x2000 ≤ n) && decide (n ≤ 0x200A)) || decide (n = 0x2028) ||
    decide (n = 0x2029) || decide (n = 0x202F) || decide (n = 0x205F) ||
    decide (n = 0x3000)

/-- Rust `str::trim`: remove leading and trailing whitespace characters. -/
def rustTrim (l : List Char) : List Char :=
  ((l.dropWhile isRustWhitespace).reverse.dropWhile isRustWhitespace).reverse

/-- Value of a decimal digit string (most significant digit first), the fold
performed by Rust's `from_str_radix` at radix 10. -/
def digitsVal (s : List Char) : Nat :=
  s.foldl (fun acc c => acc * 10 + (c.toNat - 48)) 0

/-- Rust `str::parse::<u64>`: an optional leading `+`, then one or more ASCII
digits; the value must fit in `u64`, otherwise parsing fails (overflow). -/
def parse_u64 (s : List Char) : Option Nat :=
  let ds := if s.head? = some '+' then s.drop 1 else s
  if ds = [] then none
  else if ds.all Char.isDigit then
    if digitsVal ds < 2 ^ 64 then some (digitsVal ds) else none
  else none

/-- Rust `str::find("-")`: index of the first `'-'`, if any. -/
def findHyphen : List Char → Option Nat
  | [] => none
  | c :: t => if c = '-' then some 0 else (findHyphen t).map (· + 1)

/-- The body of `parse_range` after the `bytes=` unit has been stripped and
the remainder trimmed: dispatch on the three range-spec shapes exactly as the
`if`/`else if` chain of `src/serve_range.rs` does (`contains(",")` is
membership of the character `','`; `starts_with`/`ends_with` on the one-byte
pattern `"-"` are `head?`/`getLast?`). -/
def parse_range_trimmed (rv : List Char) (total_len : Nat) : Except String (Option Range) :=
  if ',' ∈ rv then
    .ok none
  else if rv.head? = some '-' then
    match parse_u64 (rv.drop 1) with
    | none => .error "invalid range number"
    | some s =>
      if s ≥ total_len then .ok none
      else .ok (some ⟨total_len - s, total_len⟩)
  else if rv.getLast? = some '-' then
    match parse_u64 (rv.take (rv.length - 1)) with
    | none => .error "invalid range number"
    | some s =>
      if s ≥ total_len then .ok none
      else .ok (some ⟨s, total_len⟩)
  else
    match findHyphen rv with
    | some h =>
      match parse_u64 (rv.take h) with
      | none => .error "invalid range number"
      | some s =>
        match parse_u64 (rv.drop (h + 1)) with
        | none => .error "invalid range number"
        | some e =>
          if e ≥ total_len ∨ s > e then .ok none
          else .ok (some ⟨s, e + 1⟩)
    | none => .error "invalid range"

/-- Embedding of `parse_range` from `src/serve_range.rs`: parse an HTTP
`Range` header value against a total length, returning `Except.ok (some r)`
for a usable range, `Except.ok none` for a legal-but-ignored header
(multiple ranges, or a range that is out of bounds), and `Except.error msg`
for a parse failure. -/
def parse_range (range_val : String) (total_len : Nat) : Except String (Option Range) :=
  if "bytes=".data.isPrefixOf range_val.data then
    parse_range_trimmed (rustTrim (range_val.data.drop "bytes=".data.length)) total_len
  else
    .error "invalid range unit"

/-- The part of a `hyper::Request` that `hyper_response` inspects: the
`Range` and `If-Range` header values (absent, or present with a string
value). -/
structure HyperRequest where
  rangeHeader : Option String
  ifRangeHeader : Option String
deriving DecidableEq, Repr

/-- The observable content of the `hyper::Response` built by
`hyper_response`: status code, the five headers it sets, and the body
bytes. -/
structure HyperResponse where
  status : Nat
  contentType : String
  acceptRanges : String
  etag : String
  contentDisposition : String
  contentRange : Option String
  contentLength : Nat
  body : List Nat
deriving DecidableEq, Repr

/-- Modelled from the spec: `stream_range` of the in-memory byte-buffer
provider (`StreamRange` for `Bytes`, in `stream_range.rs`, not part of
`src/`): the bytes `[r.start, r.end)` of the buffer. -/
def stream_range (data : List Nat) (r : Range) : List Nat :=
  (data.drop r.start).take (r.«end» - r.start)

/-- The `range` local of `hyper_response`: take the `Range` header, keep it
only if any `If-Range` header equals the ETag byte-for-byte, parse it, and
collapse both the parse-error and the ignored outcome to `none`. -/
def appliedRange (rangeHeader ifRangeHeader : Option String) (etag : String)
    (full_len : Nat) : Option Range :=
  match rangeHeader with
  | none => none
  | some v =>
    if (match ifRangeHeader with
        | none => true
        | some iv => iv == etag) then
      match parse_range v full_len with
      | .ok r => r
      | .error _ => none
    else none

/-- Embedding of `hyper_response` from `src/serve_range.rs`, specialized to
the in-memory byte-buffer provider: build the full response from the
request's `Range`/`If-Range` headers and the entity data. -/
def hyper_response (req : HyperRequest) (content_type etag filename : String)
    (data : List Nat) : HyperResponse :=
  let full_len := data.length
  let full_range : Range := ⟨0, full_len⟩
  let range := appliedRange req.rangeHeader req.ifRangeHeader etag full_len
  let eff := range.getD full_range
  { status := match range with
      | some _ => 206
      | none => 200
    contentType := content_type
    acceptRanges := "bytes"
    etag := etag
    contentDisposition := "attachment; filename=\"" ++ filename ++ "\""
    contentRange := range.map (fun r =>
      "bytes " ++ toString r.start ++ "-" ++ toString (r.«end» - 1) ++ "/" ++
        toString full_len)
    contentLength := eff.len
    body := stream_range data eff }

/-- An upstream `hyper::Response` as `handle_request` sees it: status,
headers, and a body whose full read either fails (`Except.error`) or
yields the body bytes (`Except.error` models a failure inside
`hyper::body::to_bytes`). -/
structure UpstreamResponse where
  status : Nat
  headers : List (String × String)
  body : Except Unit String
deriving Repr

/-- ASCII-lowercase a string, character by character. -/
def lowerAscii (s : String) : String :=
  ⟨s.data.map Char.toLower⟩

/-- `upstream_res.headers().get("X-Zip-Stream").is_some()`: hyper header
lookup is ASCII case-insensitive on the header name. -/
def hasZipStreamHeader (headers : List (String × String)) : Bool :=
  headers.any (fun h => lowerAscii h.1 == "x-zip-stream")

/-- Embedding of `handle_request` from `src/main.rs`, parametrized by the
outcomes of its three external calls: `build` is the result of
`upstream::request` (in `upstream.rs`, not part of `src/`), `connect` the
result of `client.request(upstream_req).await`, and `zip_response` the
result of `upstream::response` on the buffered manifest bytes. -/
def handle_request (build : Except (Nat × String) Unit)
    (connect : Except Unit UpstreamResponse)
    (zip_response : String → Except (Nat × String) UpstreamResponse) :
    Except (Nat × String) UpstreamResponse :=
  match build with
  | .error e => .error e
  | .ok _ =>
    match connect with
    | .error _ => .error (503, "Upstream connection failed")
    | .ok res =>
      if hasZipStreamHeader res.headers then
        match res.body with
        | .error _ => .error (503, "Upstream request failed")
        | .ok bytes => zip_response bytes
      else
        .ok res

/-- The service closure in `main` (`src/main.rs`): a successful
`handle_request` response is passed through; an error pair becomes a
response with that status and the message as body. -/
def service_response (r : Except (Nat × String) UpstreamResponse) :
    UpstreamResponse :=
  match r with
  | .ok res => res
  | .error (status, message) => ⟨status, [], .ok message⟩

/-! ### Character-level facts -/

theorem digit_toNat {c : Char} (h : c.isDigit = true) :
    48 ≤ c.toNat ∧ c.toNat ≤ 57 := by
  simpa [Char.isDigit] using h

theorem digit_ne_hyphen {c : Char} (h : c.isDigit = true) : c ≠ '-' := by
  rintro rfl
  exact absurd (digit_toNat h).1 (by decide)

theorem digit_ne_plus {c : Char} (h : c.isDigit = true) : c ≠ '+' := by
  rintro rfl
  exact absurd (digit_toNat h).1 (by decide)

theorem digit_ne_comma {c : Char} (h : c.isDigit = true) : c ≠ ',' := by
  rintro rfl
  exact absurd (digit_toNat h).1 (by decide)

theorem digit_not_ws {c : Char} (h : c.isDigit = true) :
    isRustWhitespace c = false := by
  obtain ⟨h1, h2⟩ := digit_toNat h
  unfold isRustWhitespace
  simp only [Bool.or_eq_false_iff, Bool.and_eq_false_iff, decide_eq_false_iff_not]
  omega

/-! ### Facts about `parse_u64` -/

theorem parse_u64_nil : parse_u64 [] = none := rfl

theorem parse_u64_ne_nil {l : List Char} {v : Nat} (h : parse_u64 l = some v) :
    l ≠ [] := by
  rintro rfl
  simp [parse_u64_nil] at h

theorem parse_u64_eq_some_digits {l : List Char} (hne : l ≠ [])
    (hd : l.all Char.isDigit = true) (hlt : digitsVal l < 2 ^ 64) :
    parse_u64 l = some (digitsVal l) := by
  have hh : ¬ l.head? = some '+' := by
    cases l with
    | nil => simp
    | cons c t =>
      simp only [List.head?_cons, Option.some_inj]
      simp only [List.all_cons, Bool.and_eq_true] at hd
      exact digit_ne_plus hd.1
  unfold parse_u64
  simp only [hh, if_false, if_neg hne, hd, if_true, hlt]

theorem parse_u64_shape {l : List Char} {v : Nat} (h : parse_u64 l = some v) :
    ∀ c ∈ l, c = '+' ∨ c.isDigit = true := by
  unfold parse_u64 at h
  by_cases hh : l.head? = some '+'
  · have hl : l = '+' :: l.tail := by
      cases l <;> simp_all
    simp only [hh, if_true] at h
    split_ifs at h with h1 h2 h3
    intro c hc
    rw [hl] at hc
    rcases List.mem_cons.mp hc with hc | hc
    · exact Or.inl hc
    · refine Or.inr ?_
      have := List.all_eq_true.mp h2
      have ht : l.drop 1 = l.tail := by simp [List.drop_one]
      exact this c (by rw [ht]; exact hc)
  · simp only [hh, if_false] at h
    split_ifs at h with h1 h2 h3
    intro c hc
    exact Or.inr (List.all_eq_true.mp h2 c hc)

theorem parse_u64_not_mem_hyphen {l : List Char} {v : Nat}
    (h : parse_u64 l = some v) : '-' ∉ l := by
  intro hm
  rcases parse_u64_shape h _ hm with hc | hc
  · exact absurd hc (by decide)
  · exact digit_ne_hyphen hc rfl

theorem parse_u64_not_mem_comma {l : List Char} {v : Nat}
    (h : parse_u64 l = some v) : ',' ∉ l := by
  intro hm
  rcases parse_u64_shape h _ hm with hc | hc
  · exact absurd hc (by decide)
  · exact digit_ne_comma hc rfl

theorem parse_u64_not_ws {l : List Char} {v : Nat} (h : parse_u64 l = some v) :
    ∀ c ∈ l, isRustWhitespace c = false := by
  intro c hc
  rcases parse_u64_shape h _ hc with hc' | hc'
  · subst hc'; decide
  · exact digit_not_ws hc'

/-! ### Facts about `rustTrim` -/

theorem dropWhile_eq_self_of_not {p : Char → Bool} {l : List Char}
    (h : ∀ c ∈ l, p c = false) : l.dropWhile p = l := by
  cases l with
  | nil => rfl
  | cons c t =>
    exact List.dropWhile_cons_of_neg (by simp [h c (List.mem_cons_self c t)])

theorem dropWhile_append_all {p : Char → Bool} {a y : List Char}
    (h : ∀ c ∈ a, p c = true) : (a ++ y).dropWhile p = y.dropWhile p := by
  induction a with
  | nil => rfl
  | cons c t ih =>
    rw [List.cons_append,
      List.dropWhile_cons_of_pos (h c (List.mem_cons_self c t)),
      ih (fun x hx => h x (List.mem_cons_of_mem c hx))]

theorem dropWhile_all_ws {p : Char → Bool} {b : List Char}
    (h : ∀ c ∈ b, p c = true) : b.dropWhile p = [] := by
  have := dropWhile_append_all (y := ([] : List Char)) h
  simpa using this

theorem rustTrim_eq_self {l : List Char}
    (h : ∀ c ∈ l, isRustWhitespace c = false) : rustTrim l = l := by
  unfold rustTrim
  rw [dropWhile_eq_self_of_not h,
    dropWhile_eq_self_of_not (fun c hc => h c (List.mem_reverse.mp hc)),
    List.reverse_reverse]

theorem rustTrim_sandwich {a b x : List Char}
    (ha : ∀ c ∈ a, isRustWhitespace c = true)
    (hb : ∀ c ∈ b, isRustWhitespace c = true) :
    rustTrim (a ++ (x ++ b)) = rustTrim x := by
  unfold rustTrim
  rw [dropWhile_append_all ha, List.dropWhile_append]
  by_cases hx : (x.dropWhile isRustWhitespace).isEmpty
  · rw [if_pos hx, dropWhile_all_ws hb]
    rw [List.isEmpty_iff] at hx
    rw [hx]
  · rw [if_neg hx, List.reverse_append,
      dropWhile_append_all (fun c hc => hb c (List.mem_reverse.mp hc))]

/-! ### Facts about `findHyphen` -/

theorem findHyphen_append_hyphen {ds es : List Char}
    (h : ∀ c ∈ ds, c ≠ '-') :
    findHyphen (ds ++ '-' :: es) = some ds.length := by
  induction ds with
  | nil => simp [findHyphen]
  | cons c t ih =>
    rw [List.cons_append]
    unfold findHyphen
    rw [if_neg (h c (List.mem_cons_self c t)),
      ih (fun x hx => h x (List.mem_cons_of_mem c hx))]
    rfl

theorem findHyphen_eq_none {l : List Char} (h : findHyphen l = none) :
    '-' ∉ l := by
  induction l with
  | nil => simp
  | cons c t ih =>
    unfold findHyphen at h
    split_ifs at h with hc
    rw [Option.map_eq_none'] at h
    simp only [List.mem_cons, not_or]
    exact ⟨fun he => hc he.symm, ih h⟩

theorem findHyphen_of_not_mem {l : List Char} (h : '-' ∉ l) :
    findHyphen l = none := by
  induction l with
  | nil => rfl
  | cons c t ih =>
    unfold findHyphen
    simp only [List.mem_cons, not_or] at h
    rw [if_neg (fun he => h.1 (id he.symm)), ih h.2]
    rfl

theorem findHyphen_spec {l : List Char} {h : Nat} (hf : findHyphen l = some h) :
    l.take h ++ '-' :: l.drop (h + 1) = l ∧ ∀ c ∈ l.take h, c ≠ '-' := by
  induction l generalizing h with
  | nil => simp [findHyphen] at hf
  | cons c t ih =>
    unfold findHyphen at hf
    split_ifs at hf with hc
    · rw [Option.some_inj] at hf
      subst hf
      subst hc
      simp
    · rw [Option.map_eq_some'] at hf
      obtain ⟨k, hk, rfl⟩ := hf
      obtain ⟨h1, h2⟩ := ih hk
      have htk : List.take (k + 1) (c :: t) = c :: List.take k t := by
        rw [List.take_cons (by omega : 0 < k + 1)]
        simp only [Nat.add_sub_cancel]
      constructor
      · rw [htk, List.cons_append]
        have hd : List.drop (k + 1 + 1) (c :: t) = List.drop (k + 1) t := rfl
        rw [hd, h1]
      · intro x hx
        rw [htk] at hx
        rcases List.mem_cons.mp hx with hx | hx
        · subst hx
          exact fun he => hc he
        · exact h2 x hx

/-! ### Evaluation of `parse_range` on the syntactic shapes of a range spec -/

theorem parse_range_mk (rest : List Char) (T : Nat) :
    parse_range ⟨"bytes=".data ++ rest⟩ T = parse_range_trimmed (rustTrim rest) T := by
  unfold parse_range
  have hp : "bytes=".data.isPrefixOf (String.mk ("bytes=".data ++ rest)).data = true := by
    rw [List.isPrefixOf_iff_prefix]
    exact List.prefix_append _ _
  rw [if_pos hp]
  have hd : (String.mk ("bytes=".data ++ rest)).data.drop "bytes=".data.length = rest :=
    List.drop_left _ _
  rw [hd]

theorem trimmed_comma {rv : List Char} (h : ',' ∈ rv) (T : Nat) :
    parse_range_trimmed rv T = .ok none := by
  unfold parse_range_trimmed
  rw [if_pos h]

theorem trimmed_prefix_hyphen {t : List Char} (hc : ',' ∉ t) (T : Nat) :
    parse_range_trimmed ('-' :: t) T =
      match parse_u64 t with
      | none => .error "invalid range number"
      | some s => if s ≥ T then .ok none else .ok (some ⟨T - s, T⟩) := by
  unfold parse_range_trimmed
  have h1 : ',' ∉ '-' :: t := by
    simp only [List.mem_cons, not_or]
    exact ⟨by decide, hc⟩
  rw [if_neg h1, if_pos (show ('-' :: t).head? = some '-' from rfl)]
  rfl

theorem trimmed_suffix_hyphen {t : List Char} (hne : t ≠ [])
    (hh : t.head? ≠ some '-') (hc : ',' ∉ t) (T : Nat) :
    parse_range_trimmed (t ++ ['-']) T =
      match parse_u64 t with
      | none => .error "invalid range number"
      | some s => if s ≥ T then .ok none else .ok (some ⟨s, T⟩) := by
  unfold parse_range_trimmed
  have h1 : ',' ∉ t ++ ['-'] := by
    simp only [List.mem_append, List.mem_singleton, not_or]
    exact ⟨hc, by decide⟩
  rw [if_neg h1]
  have h2 : ¬ (t ++ ['-']).head? = some '-' := by
    cases t with
    | nil => exact absurd rfl hne
    | cons c u =>
      simpa using (by simpa using hh : ¬ c = '-')
  rw [if_neg h2]
  have h3 : (t ++ ['-']).getLast? = some '-' := by simp
  rw [if_pos h3]
  have h4 : (t ++ ['-']).take ((t ++ ['-']).length - 1) = t := by
    have hl : (t ++ ['-']).length - 1 = t.length := by simp
    rw [hl, List.take_left]
  rw [h4]

theorem trimmed_mid_hyphen {t u : List Char} (hneT : t ≠ []) (hneU : u ≠ [])
    (hhT : t.head? ≠ some '-') (hlU : u.getLast? ≠ some '-')
    (hmT : '-' ∉ t) (hcT : ',' ∉ t) (hcU : ',' ∉ u) (T : Nat) :
    parse_range_trimmed (t ++ '-' :: u) T =
      match parse_u64 t with
      | none => .error "invalid range number"
      | some s =>
        match parse_u64 u with
        | none => .error "invalid range number"
        | some e => if e ≥ T ∨ s > e then .ok none else .ok (some ⟨s, e + 1⟩) := by
  unfold parse_range_trimmed
  have h1 : ',' ∉ t ++ '-' :: u := by
    simp only [List.mem_append, List.mem_cons, not_or]
    exact ⟨hcT, by decide, hcU⟩
  rw [if_neg h1]
  have h2 : ¬ (t ++ '-' :: u).head? = some '-' := by
    cases t with
    | nil => exact absurd rfl hneT
    | cons c v =>
      simpa using (by simpa using hhT : ¬ c = '-')
  rw [if_neg h2]
  have h3 : ¬ (t ++ '-' :: u).getLast? = some '-' := by
    have he : (t ++ '-' :: u).getLast? = u.getLast? := by
      rw [List.getLast?_append]
      cases hu : u.getLast? with
      | none => exact absurd (List.getLast?_eq_none_iff.mp hu) hneU
      | some x => simp [List.getLast?_cons, hu]
    rw [he]
    exact hlU
  rw [if_neg h3]
  have h4 : findHyphen (t ++ '-' :: u) = some t.length :=
    findHyphen_append_hyphen (fun c hc he => hmT (he ▸ hc))
  rw [h4]
  have h5 : (t ++ '-' :: u).take t.length = t := List.take_left _ _
  have h6 : (t ++ '-' :: u).drop (t.length + 1) = u := by
    have ha : t ++ '-' :: u = (t ++ ['-']) ++ u := by simp
    rw [ha]
    exact List.drop_left' (by simp)
  simp only [h5, h6]

theorem trimmed_no_hyphen {rv : List Char} (hm : '-' ∉ rv) (hc : ',' ∉ rv)
    (T : Nat) : parse_range_trimmed rv T = .error "invalid range" := by
  unfold parse_range_trimmed
  have h2 : ¬ rv.head? = some '-' := fun h =>
    hm (List.mem_of_mem_head? (by simp [h]))
  have h3 : ¬ rv.getLast? = some '-' := fun h =>
    hm (List.mem_of_mem_getLast? (by simp [h]))
  rw [if_neg hc, if_neg h2, if_neg h3, findHyphen_of_not_mem hm]

/-! ### Facts about all-digit strings -/

theorem digits_not_ws {ds : List Char} (h : ds.all Char.isDigit = true) :
    ∀ c ∈ ds, isRustWhitespace c = false :=
  fun c hc => digit_not_ws (List.all_eq_true.mp h c hc)

theorem digits_no_comma {ds : List Char} (h : ds.all Char.isDigit = true) :
    ',' ∉ ds :=
  fun hc => digit_ne_comma (List.all_eq_true.mp h _ hc) rfl

theorem digits_no_hyphen {ds : List Char} (h : ds.all Char.isDigit = true) :
    '-' ∉ ds :=
  fun hc => digit_ne_hyphen (List.all_eq_true.mp h _ hc) rfl

theorem digits_head_ne_hyphen {ds : List Char} (h : ds.all Char.isDigit = true) :
    ds.head? ≠ some '-' := by
  intro hh
  exact digits_no_hyphen h (List.mem_of_mem_head? (by simp [hh]))

theorem digits_getLast_ne_hyphen {ds : List Char} (h : ds.all Char.isDigit = true) :
    ds.getLast? ≠ some '-' := by
  intro hh
  exact digits_no_hyphen h (List.mem_of_mem_getLast? (by simp [hh]))

/-- **C1.** For every total length `T` (a `u64`) and every `Range` header value
of the form `bytes=` followed by a single range spec written with decimal
numerals: `bytes=N-` with `N < T` yields the half-open range `[N, T)`;
`bytes=-N` with `N < T` yields `[T - N, T)`; and `bytes=A-B` with `A ≤ B` and
`B < T` yields `[A, B + 1)` — each returned as `Ok(Some(range))`. -/
theorem parse_range_valid_single_specs (T : Nat) (hT : T < 2 ^ 64)
    (ds es : List Char) (hdsne : ds ≠ []) (hds : ds.all Char.isDigit = true)
    (hesne : es ≠ []) (hes : es.all Char.isDigit = true) :
    (digitsVal ds < T →
      parse_range ("bytes=" ++ String.mk ds ++ "-") T =
        .ok (some ⟨digitsVal ds, T⟩)) ∧
    (digitsVal ds < T →
      parse_range ("bytes=-" ++ String.mk ds) T =
        .ok (some ⟨T - digitsVal ds, T⟩)) ∧
    (digitsVal ds ≤ digitsVal es → digitsVal es < T →
      parse_range ("bytes=" ++ String.mk ds ++ "-" ++ String.mk es) T =
        .ok (some ⟨digitsVal ds, digitsVal es + 1⟩)) := by
  refine ⟨?_, ?_, ?_⟩
  · intro hlt
    have e1 : ("bytes=" ++ String.mk ds ++ "-") =
        String.mk ("bytes=".data ++ (ds ++ ['-'])) := by
      show String.mk (("bytes=".data ++ ds) ++ ['-']) = _
      rw [List.append_assoc]
    rw [e1, parse_range_mk]
    rw [rustTrim_eq_self (by
      intro c hc
      rcases List.mem_append.mp hc with hc | hc
      · exact digits_not_ws hds c hc
      · rw [List.mem_singleton] at hc
        subst hc
        decide)]
    rw [trimmed_suffix_hyphen hdsne (digits_head_ne_hyphen hds)
      (digits_no_comma hds) T]
    rw [parse_u64_eq_some_digits hdsne hds (Nat.lt_trans hlt hT)]
    have hnge : ¬ digitsVal ds ≥ T := by omega
    simp [hnge]
  · intro hlt
    have e2 : ("bytes=-" ++ String.mk ds) =
        String.mk ("bytes=".data ++ ('-' :: ds)) := rfl
    rw [e2, parse_range_mk]
    rw [rustTrim_eq_self (by
      intro c hc
      rcases List.mem_cons.mp hc with hc | hc
      · subst hc
        decide
      · exact digits_not_ws hds c hc)]
    rw [trimmed_prefix_hyphen (digits_no_comma hds) T]
    rw [parse_u64_eq_some_digits hdsne hds (Nat.lt_trans hlt hT)]
    have hnge : ¬ digitsVal ds ≥ T := by omega
    simp [hnge]
  · intro hle hlt
    have e3 : ("bytes=" ++ String.mk ds ++ "-" ++ String.mk es) =
        String.mk ("bytes=".data ++ (ds ++ '-' :: es)) := by
      show String.mk ((("bytes=".data ++ ds) ++ ['-']) ++ es) = _
      rw [List.append_assoc, List.append_assoc]
      rfl
    rw [e3, parse_range_mk]
    rw [rustTrim_eq_self (by
      intro c hc
      rcases List.mem_append.mp hc with hc | hc
      · exact digits_not_ws hds c hc
      · rcases List.mem_cons.mp hc with hc | hc
        · subst hc
          decide
        · exact digits_not_ws hes c hc)]
    rw [trimmed_mid_hyphen hdsne hesne (digits_head_ne_hyphen hds)
      (digits_getLast_ne_hyphen hes) (digits_no_hyphen hds)
      (digits_no_comma hds) (digits_no_comma hes) T]
    rw [parse_u64_eq_some_digits hdsne hds (by omega)]
    rw [parse_u64_eq_some_digits hesne hes (by omega)]
    have hno : ¬ (digitsVal es ≥ T ∨ digitsVal ds > digitsVal es) := by omega
    simp [hno]

/-- Witness for C1 at `"bytes=500-"` with total length 1000. -/
theorem parse_range_valid_single_specs_witness :
    parse_range ("bytes=" ++ String.mk ['5', '0', '0'] ++ "-") 1000 =
      Except.ok (some ⟨500, 1000⟩) := by
  have h := parse_range_valid_single_specs 1000 (by norm_num)
    ['5', '0', '0'] ['9', '9', '9'] (by decide) (by decide) (by decide)
    (by decide)
  exact h.1 (by decide)

/-- `bytes=-0` on a non-empty entity: the suffix length 0 is in range, so the
parsed range is the empty suffix `[T, T)`. -/
theorem parse_range_neg_zero {T : Nat} (hT : 0 < T) :
    parse_range "bytes=-0" T = .ok (some ⟨T, T⟩) := by
  have e : ("bytes=-0" : String) = String.mk ("bytes=".data ++ ('-' :: ['0'])) := rfl
  rw [e, parse_range_mk]
  rw [rustTrim_eq_self (by decide)]
  rw [trimmed_prefix_hyphen (by decide) T]
  rw [show parse_u64 ['0'] = some 0 from rfl]
  have hng : ¬ (0 ≥ T) := by omega
  simp [hng]

/-- **C9.** Every range produced by `parse_range` is in bounds and never ends
at zero: `start ≤ end`, `end ≤ T` and `1 ≤ end` (so no range is produced for
`T = 0`, and `end - 1` in the `Content-Range` header cannot underflow).  The
range may be empty: `bytes=-0` on a non-empty entity parses to `[T, T)`,
which `hyper_response` serves as a `206` with `Content-Length` 0. -/
theorem parse_range_range_invariant :
    (∀ (v : String) (T : Nat) (r : Range),
      parse_range v T = .ok (some r) →
      r.start ≤ r.«end» ∧ r.«end» ≤ T ∧ 1 ≤ r.«end») ∧
    (∀ (T : Nat), 0 < T → parse_range "bytes=-0" T = .ok (some ⟨T, T⟩)) ∧
    (∀ (ct etag fn : String) (data : List Nat), data ≠ [] →
      (hyper_response ⟨some "bytes=-0", none⟩ ct etag fn data).status = 206 ∧
      (hyper_response ⟨some "bytes=-0", none⟩ ct etag fn data).contentLength = 0) := by
  refine ⟨?_, fun T hT => parse_range_neg_zero hT, ?_⟩
  · intro v T r h
    unfold parse_range at h
    split_ifs at h with hp
    unfold parse_range_trimmed at h
    split_ifs at h with h1 h2 h3
    · simp at h
    · split at h
      · simp at h
      · rename_i s hs
        split_ifs at h with hge
        · simp at h
        · simp only [Except.ok.injEq, Option.some.injEq] at h
          subst h
          exact ⟨show T - s ≤ T by omega, show T ≤ T by omega,
            show 1 ≤ T by omega⟩
    · split at h
      · simp at h
      · rename_i s hs
        split_ifs at h with hge
        · simp at h
        · simp only [Except.ok.injEq, Option.some.injEq] at h
          subst h
          exact ⟨show s ≤ T by omega, show T ≤ T by omega,
            show 1 ≤ T by omega⟩
    · split at h
      · rename_i k hk
        split at h
        · simp at h
        · rename_i s hs
          split at h
          · simp at h
          · rename_i e he
            split_ifs at h with hge
            · simp at h
            · push_neg at hge
              simp only [Except.ok.injEq, Option.some.injEq] at h
              subst h
              exact ⟨show s ≤ e + 1 by omega, show e + 1 ≤ T by omega,
                show 1 ≤ e + 1 by omega⟩
      · simp at h
  · intro ct etag fn data hne
    have hlen : 0 < data.length := List.length_pos.mpr hne
    have hp := parse_range_neg_zero hlen
    constructor
    · simp [hyper_response, appliedRange, hp]
    · simp [hyper_response, appliedRange, hp, Range.len]

/-- Witness for C9: `bytes=-0` against a 3-byte entity. -/
theorem parse_range_range_invariant_witness :
    ((3 : Nat) ≤ 3 ∧ 3 ≤ 3 ∧ 1 ≤ 3) ∧
      parse_range "bytes=-0" 3 = Except.ok (some ⟨3, 3⟩) ∧
      (hyper_response ⟨some "bytes=-0", none⟩ "ct" "E" "f.zip"
        [10, 20, 30]).status = 206 := by
  obtain ⟨h1, h2, h3⟩ := parse_range_range_invariant
  refine ⟨h1 "bytes=-0" 3 ⟨3, 3⟩ (h2 3 (by norm_num)), h2 3 (by norm_num), ?_⟩
  exact (h3 "ct" "E" "f.zip" [10, 20, 30] (by simp)).1

/-- A list ending in `'-'` splits as its `dropLast` plus that hyphen. -/
theorem eq_dropLast_append_hyphen {l : List Char} (h : l.getLast? = some '-') :
    l = l.dropLast ++ ['-'] := by
  have hne : l ≠ [] := by rintro rfl; simp at h
  have hd := List.dropLast_append_getLast hne
  rw [List.getLast?_eq_getLast l hne, Option.some_inj] at h
  rw [h] at hd
  exact hd.symm

/-- **C2.** For every total length `T`, `parse_range` returns `Ok(None)` — the
header is ignored rather than rejected with 416 — exactly when the value has
the `bytes=` unit and its trimmed range spec either contains a comma
(multiple ranges) or is a single spec that parses but is out of range:
`-N` (i.e. `bytes=-N`) with `N ≥ T`, `N-` with `N ≥ T`, or `A-B` with
`B ≥ T` or `A > B`. -/
theorem parse_range_ignored_iff (v : String) (T : Nat) :
    parse_range v T = .ok none ↔
      ("bytes=".data.isPrefixOf v.data = true ∧
        ((',' ∈ rustTrim (v.data.drop "bytes=".data.length)) ∨
         (∃ t s, rustTrim (v.data.drop "bytes=".data.length) = '-' :: t ∧
            parse_u64 t = some s ∧ T ≤ s) ∨
         (∃ t s, rustTrim (v.data.drop "bytes=".data.length) = t ++ ['-'] ∧
            parse_u64 t = some s ∧ T ≤ s) ∨
         (∃ t u s e, rustTrim (v.data.drop "bytes=".data.length) = t ++ '-' :: u ∧
            parse_u64 t = some s ∧ parse_u64 u = some e ∧
            (T ≤ e ∨ e < s)))) := by
  constructor
  · intro h
    unfold parse_range at h
    split_ifs at h with hp
    refine ⟨hp, ?_⟩
    generalize hgen : rustTrim (v.data.drop "bytes=".data.length) = rv at h ⊢
    unfold parse_range_trimmed at h
    split_ifs at h with h1 h2 h3
    · exact Or.inl h1
    · refine Or.inr (Or.inl ?_)
      split at h
      · simp at h
      · rename_i s hs
        split_ifs at h with hge
        · have hshape : rv = '-' :: rv.tail := by
            cases rv with
            | nil => simp at h2
            | cons c t =>
              rw [List.head?_cons, Option.some_inj] at h2
              rw [h2]
              rfl
          exact ⟨rv.tail, s, hshape, by rw [← List.drop_one]; exact hs, hge⟩
        · simp at h
    · refine Or.inr (Or.inr (Or.inl ?_))
      split at h
      · simp at h
      · rename_i s hs
        split_ifs at h with hge
        · refine ⟨rv.dropLast, s, eq_dropLast_append_hyphen h3, ?_, hge⟩
          rw [← List.dropLast_eq_take] at hs
          exact hs
        · simp at h
    · refine Or.inr (Or.inr (Or.inr ?_))
      split at h
      · rename_i k hk
        obtain ⟨hsplit, _⟩ := findHyphen_spec hk
        split at h
        · simp at h
        · rename_i s hs
          split at h
          · simp at h
          · rename_i e he
            split_ifs at h with hge
            · exact ⟨rv.take k, rv.drop (k + 1), s, e, hsplit.symm, hs, he, hge⟩
            · simp at h
      · simp at h
  · rintro ⟨hp, hcase⟩
    unfold parse_range
    rw [if_pos hp]
    rcases hcase with hcm | ⟨t, s, hshape, hps, hge⟩ | ⟨t, s, hshape, hps, hge⟩ |
      ⟨t, u, s, e, hshape, hps, hpe, hcond⟩
    · exact trimmed_comma hcm T
    · rw [hshape, trimmed_prefix_hyphen (parse_u64_not_mem_comma hps) T, hps]
      simp [show s ≥ T from hge]
    · have hh : t.head? ≠ some '-' := fun hx =>
        parse_u64_not_mem_hyphen hps (List.mem_of_mem_head? (by simp [hx]))
      rw [hshape, trimmed_suffix_hyphen (parse_u64_ne_nil hps) hh
        (parse_u64_not_mem_comma hps) T, hps]
      simp [show s ≥ T from hge]
    · have hhT : t.head? ≠ some '-' := fun hx =>
        parse_u64_not_mem_hyphen hps (List.mem_of_mem_head? (by simp [hx]))
      have hlU : u.getLast? ≠ some '-' := fun hx =>
        parse_u64_not_mem_hyphen hpe (List.mem_of_mem_getLast? (by simp [hx]))
      rw [hshape, trimmed_mid_hyphen (parse_u64_ne_nil hps) (parse_u64_ne_nil hpe)
        hhT hlU (parse_u64_not_mem_hyphen hps) (parse_u64_not_mem_comma hps)
        (parse_u64_not_mem_comma hpe) T, hps, hpe]
      simp [show e ≥ T ∨ s > e from hcond]

/-- Witness for C2: `bytes=500-1000` with total length 1000 is ignored. -/
theorem parse_range_ignored_iff_witness :
    parse_range "bytes=500-1000" 1000 = Except.ok none := by
  refine (parse_range_ignored_iff "bytes=500-1000" 1000).mpr ⟨by decide, ?_⟩
  refine Or.inr (Or.inr (Or.inr ⟨['5', '0', '0'], ['1', '0', '0', '0'],
    500, 1000, by decide, by decide, by decide, by decide⟩))

/-- The head of an append with a non-empty left part. -/
theorem head?_append_left {t : List Char} (h : t ≠ []) (l : List Char) :
    (t ++ l).head? = t.head? := by
  cases t with
  | nil => exact absurd rfl h
  | cons c r => rfl

/-- The last element of `t ++ '-' :: u` for non-empty `u`. -/
theorem getLast?_append_mid {t u : List Char} (h : u ≠ []) :
    (t ++ '-' :: u).getLast? = u.getLast? := by
  rw [List.getLast?_append]
  cases hu : u.getLast? with
  | none => exact absurd (List.getLast?_eq_none_iff.mp hu) h
  | some x => simp [List.getLast?_cons, hu]

/-- **C5.** `parse_range` fails with `Err` — a parse error returned to the
caller, distinct from the `Ok(None)` ignore outcome — exactly when the value
does not begin with the `bytes=` unit, or the (comma-free) single range spec
after `bytes=` has a range number that does not parse as a `u64`, or has no
hyphen form at all (e.g. `bytes=`). -/
theorem parse_range_error_iff (v : String) (T : Nat) :
    (∃ msg, parse_range v T = .error msg) ↔
      ("bytes=".data.isPrefixOf v.data = false ∨
        (',' ∉ rustTrim (v.data.drop "bytes=".data.length) ∧
          ((∃ t, rustTrim (v.data.drop "bytes=".data.length) = '-' :: t ∧
              parse_u64 t = none) ∨
           ((rustTrim (v.data.drop "bytes=".data.length)).head? ≠ some '-' ∧
             ∃ t, rustTrim (v.data.drop "bytes=".data.length) = t ++ ['-'] ∧
               parse_u64 t = none) ∨
           ((rustTrim (v.data.drop "bytes=".data.length)).head? ≠ some '-' ∧
             (rustTrim (v.data.drop "bytes=".data.length)).getLast? ≠ some '-' ∧
             ∃ t u, rustTrim (v.data.drop "bytes=".data.length) = t ++ '-' :: u ∧
               '-' ∉ t ∧
               (parse_u64 t = none ∨
                 ∃ s, parse_u64 t = some s ∧ parse_u64 u = none)) ∨
           '-' ∉ rustTrim (v.data.drop "bytes=".data.length)))) := by
  constructor
  · rintro ⟨msg, h⟩
    unfold parse_range at h
    split_ifs at h with hp
    · refine Or.inr ?_
      generalize hgen : rustTrim (v.data.drop "bytes=".data.length) = rv at h ⊢
      unfold parse_range_trimmed at h
      split_ifs at h with h1 h2 h3
      · refine ⟨h1, Or.inl ?_⟩
        split at h
        · rename_i hs
          have hshape : rv = '-' :: rv.tail := by
            cases rv with
            | nil => simp at h2
            | cons c t =>
              rw [List.head?_cons, Option.some_inj] at h2
              rw [h2]
              rfl
          refine ⟨rv.tail, hshape, ?_⟩
          rw [← List.drop_one]
          exact hs
        · rename_i s hs
          split_ifs at h
      · refine ⟨h1, Or.inr (Or.inl ⟨h2, ?_⟩)⟩
        split at h
        · rename_i hs
          refine ⟨rv.dropLast, eq_dropLast_append_hyphen h3, ?_⟩
          rw [← List.dropLast_eq_take] at hs
          exact hs
        · rename_i s hs
          split_ifs at h
      · split at h
        · rename_i k hk
          obtain ⟨hsplit, hnm⟩ := findHyphen_spec hk
          refine ⟨h1, Or.inr (Or.inr (Or.inl ⟨h2, h3, rv.take k, rv.drop (k + 1),
            hsplit.symm, fun hx => hnm _ hx rfl, ?_⟩))⟩
          split at h
          · rename_i hs
            exact Or.inl hs
          · rename_i s hs
            split at h
            · rename_i he
              exact Or.inr ⟨s, hs, he⟩
            · rename_i e he
              split_ifs at h
        · rename_i hk
          exact ⟨h1, Or.inr (Or.inr (Or.inr (findHyphen_eq_none hk)))⟩
    · exact Or.inl (Bool.eq_false_iff.mpr hp)
  · intro hcase
    unfold parse_range
    rcases hcase with hp | ⟨hcm, hcase⟩
    · rw [if_neg (by simp [hp])]
      exact ⟨"invalid range unit", rfl⟩
    · by_cases hp : "bytes=".data.isPrefixOf v.data = true
      · rw [if_pos hp]
        generalize hgen : rustTrim (v.data.drop "bytes=".data.length) = rv
          at hcm hcase
        rcases hcase with ⟨t, hshape, hpn⟩ | ⟨hh, t, hshape, hpn⟩ |
          ⟨hh, hl, t, u, hshape, hmt, hpn⟩ | hnm
        · refine ⟨"invalid range number", ?_⟩
          have hct : ',' ∉ t := fun hx => by
            rw [hshape] at hcm
            exact hcm (List.mem_cons_of_mem _ hx)
          rw [hshape, trimmed_prefix_hyphen hct T, hpn]
        · refine ⟨"invalid range number", ?_⟩
          have hne : t ≠ [] := by
            rintro rfl
            exact hh (by rw [hshape]; rfl)
          have hht : t.head? ≠ some '-' := fun hx =>
            hh (by rw [hshape, head?_append_left hne]; exact hx)
          have hct : ',' ∉ t := fun hx => by
            rw [hshape] at hcm
            exact hcm (List.mem_append.mpr (Or.inl hx))
          rw [hshape, trimmed_suffix_hyphen hne hht hct T, hpn]
        · have hneT : t ≠ [] := by
            rintro rfl
            exact hh (by rw [hshape]; rfl)
          have hneU : u ≠ [] := by
            rintro rfl
            exact hl (by rw [hshape]; simp)
          have hhT : t.head? ≠ some '-' := fun hx =>
            hh (by rw [hshape, head?_append_left hneT]; exact hx)
          have hlU : u.getLast? ≠ some '-' := fun hx =>
            hl (by rw [hshape, getLast?_append_mid hneU]; exact hx)
          have hct : ',' ∉ t := fun hx => by
            rw [hshape] at hcm
            exact hcm (List.mem_append.mpr (Or.inl hx))
          have hcu : ',' ∉ u := fun hx => by
            rw [hshape] at hcm
            exact hcm (List.mem_append.mpr (Or.inr (List.mem_cons_of_mem _ hx)))
          refine ⟨"invalid range number", ?_⟩
          rw [hshape, trimmed_mid_hyphen hneT hneU hhT hlU hmt hct hcu T]
          rcases hpn with hpn | ⟨s, hps, hpn⟩
          · rw [hpn]
          · rw [hps, hpn]
        · exact ⟨"invalid range", trimmed_no_hyphen hnm hcm T⟩
      · rw [if_neg hp]
        exact ⟨"invalid range unit", rfl⟩

/-- Witness for C5: `lines=0-10` with total length 1000 is a parse error. -/
theorem parse_range_error_iff_witness :
    ∃ msg, parse_range "lines=0-10" 1000 = Except.error msg := by
  refine (parse_range_error_iff "lines=0-10" 1000).mpr (Or.inl (by decide))

/-- **C10.** `parse_range` trims whitespace from the portion of the header
value after `bytes=`: surrounding whitespace (as in `bytes= 100-200 `) parses
identically to the unpadded value, while whitespace adjacent to the hyphen or
inside a number (as in `bytes=100 - 200`) is still a parse error because the
number parse rejects it. -/
theorem parse_range_trims_whitespace :
    (∀ (a b rest : List Char) (T : Nat),
      (∀ c ∈ a, isRustWhitespace c = true) →
      (∀ c ∈ b, isRustWhitespace c = true) →
      parse_range (String.mk ("bytes=".data ++ (a ++ (rest ++ b)))) T =
        parse_range (String.mk ("bytes=".data ++ rest)) T) ∧
    parse_range "bytes=100 - 200" 1000 = .error "invalid range number" := by
  constructor
  · intro a b rest T ha hb
    rw [parse_range_mk, parse_range_mk, rustTrim_sandwich ha hb]
  · rfl

/-- Witness for C10: `bytes= 100-200 ` parses exactly like `bytes=100-200`. -/
theorem parse_range_trims_whitespace_witness :
    parse_range "bytes= 100-200 " 1000 = parse_range "bytes=100-200" 1000 := by
  exact parse_range_trims_whitespace.1 [' '] [' ']
    ['1', '0', '0', '-', '2', '0', '0'] 1000 (by decide) (by decide)

/-- **C3.** With both `Range` and `If-Range` present: if the `If-Range` value
differs byte-for-byte from the ETag, the `Range` header is dropped and the
full entity is served (status 200, full `Content-Length`, no `Content-Range`,
full body); if it equals the ETag the response is the same as with no
`If-Range` header, and on a 10-byte entity with `Range: bytes=4-8` and a
matching `If-Range` the result is `206`, body = bytes 4..8 inclusive, and
`Content-Range: bytes 4-8/10`. -/
theorem hyper_response_if_range :
    (∀ (rv ir ct etag fn : String) (data : List Nat),
      ir ≠ etag →
      (hyper_response ⟨some rv, some ir⟩ ct etag fn data).status = 200 ∧
      (hyper_response ⟨some rv, some ir⟩ ct etag fn data).contentLength =
        data.length ∧
      (hyper_response ⟨some rv, some ir⟩ ct etag fn data).contentRange = none ∧
      (hyper_response ⟨some rv, some ir⟩ ct etag fn data).body = data) ∧
    (∀ (rv ct etag fn : String) (data : List Nat),
      hyper_response ⟨some rv, some etag⟩ ct etag fn data =
        hyper_response ⟨some rv, none⟩ ct etag fn data) ∧
    ((hyper_response ⟨some "bytes=4-8", some "ETAG"⟩ "application/test" "ETAG"
        "foo.zip" (List.range 10)).status = 206 ∧
      (hyper_response ⟨some "bytes=4-8", some "ETAG"⟩ "application/test" "ETAG"
        "foo.zip" (List.range 10)).body = [4, 5, 6, 7, 8] ∧
      (hyper_response ⟨some "bytes=4-8", some "ETAG"⟩ "application/test" "ETAG"
        "foo.zip" (List.range 10)).contentRange = some "bytes 4-8/10" ∧
      (hyper_response ⟨some "bytes=4-8", some "ETAG"⟩ "application/test" "ETAG"
        "foo.zip" (List.range 10)).contentLength = 5) := by
  refine ⟨?_, ?_, ?_⟩
  · intro rv ir ct etag fn data hir
    have hap : appliedRange (some rv) (some ir) etag data.length = none := by
      simp [appliedRange, beq_iff_eq, hir]
    refine ⟨?_, ?_, ?_, ?_⟩ <;>
      simp [hyper_response, hap, stream_range, Range.len]
  · intro rv ct etag fn data
    have hap : appliedRange (some rv) (some etag) etag data.length =
        appliedRange (some rv) none etag data.length := by
      simp [appliedRange]
    simp only [hyper_response]
    rw [hap]
  · exact ⟨rfl, rfl, rfl, rfl⟩

/-- Witness for C3: a mismatching `If-Range` forces the full 200 response. -/
theorem hyper_response_if_range_witness :
    (hyper_response ⟨some "bytes=4-8", some "WRONG"⟩ "application/test" "ETAG"
      "foo.zip" (List.range 10)).status = 200 := by
  exact (hyper_response_if_range.1 "bytes=4-8" "WRONG" "application/test"
    "ETAG" "foo.zip" (List.range 10) (by decide)).1

/-- **C4.** For every request, `hyper_response` sets `Content-Type`,
`Accept-Ranges: bytes`, `ETag`, and
`Content-Disposition: attachment; filename="<archive-name>"`, with
`Content-Length` the length `end - start` of the effective range (the full
length when no range applies); when a range applies the status is 206 with
`Content-Range: bytes start-(end-1)/total`, otherwise the status is 200 with
no `Content-Range`. -/
theorem hyper_response_headers_status (req : HyperRequest)
    (ct etag fn : String) (data : List Nat) :
    (hyper_response req ct etag fn data).contentType = ct ∧
    (hyper_response req ct etag fn data).acceptRanges = "bytes" ∧
    (hyper_response req ct etag fn data).etag = etag ∧
    (hyper_response req ct etag fn data).contentDisposition =
      "attachment; filename=\"" ++ fn ++ "\"" ∧
    (∀ r, appliedRange req.rangeHeader req.ifRangeHeader etag data.length =
        some r →
      (hyper_response req ct etag fn data).status = 206 ∧
      (hyper_response req ct etag fn data).contentLength =
        r.«end» - r.start ∧
      (hyper_response req ct etag fn data).contentRange =
        some ("bytes " ++ toString r.start ++ "-" ++ toString (r.«end» - 1) ++
          "/" ++ toString data.length)) ∧
    (appliedRange req.rangeHeader req.ifRangeHeader etag data.length = none →
      (hyper_response req ct etag fn data).status = 200 ∧
      (hyper_response req ct etag fn data).contentLength = data.length ∧
      (hyper_response req ct etag fn data).contentRange = none) := by
  refine ⟨rfl, rfl, rfl, rfl, ?_, ?_⟩
  · intro r hr
    refine ⟨?_, ?_, ?_⟩ <;> simp [hyper_response, hr, Range.len]
  · intro hr
    refine ⟨?_, ?_, ?_⟩ <;> simp [hyper_response, hr, Range.len]

/-- Witness for C4: a request with no `Range` header gets a 200 with the
full length and no `Content-Range`. -/
theorem hyper_response_headers_status_witness :
    (hyper_response ⟨none, none⟩ "ct" "E" "f.zip" [7, 8, 9]).status = 200 ∧
      (hyper_response ⟨none, none⟩ "ct" "E" "f.zip" [7, 8, 9]).contentLength = 3 ∧
      (hyper_response ⟨none, none⟩ "ct" "E" "f.zip" [7, 8, 9]).acceptRanges =
        "bytes" := by
  have h := hyper_response_headers_status ⟨none, none⟩ "ct" "E" "f.zip" [7, 8, 9]
  obtain ⟨hs, hl, hcr⟩ := h.2.2.2.2.2 rfl
  exact ⟨hs, hl, h.2.1⟩

/-- **C6.** When the `Range` header value fails to parse, `hyper_response`
ignores it and serves the full response: status 200, `Content-Length` equal
to the full entity length, the full body, and no `Content-Range`. -/
theorem hyper_response_parse_error_full (ct etag fn : String) (data : List Nat)
    (v : String) (irOpt : Option String) (e : String)
    (hv : parse_range v data.length = .error e) :
    (hyper_response ⟨some v, irOpt⟩ ct etag fn data).status = 200 ∧
    (hyper_response ⟨some v, irOpt⟩ ct etag fn data).contentLength =
      data.length ∧
    (hyper_response ⟨some v, irOpt⟩ ct etag fn data).contentRange = none ∧
    (hyper_response ⟨some v, irOpt⟩ ct etag fn data).body = data := by
  have hap : appliedRange (some v) irOpt etag data.length = none := by
    unfold appliedRange
    cases irOpt with
    | none => simp [hv]
    | some iv =>
      split_ifs with hiv
      · simp [hv]
      · rfl
  refine ⟨?_, ?_, ?_, ?_⟩ <;>
    simp [hyper_response, hap, stream_range, Range.len]

/-- Witness for C6: `lines=0-10` is a parse error, so the 3-byte entity is
served in full. -/
theorem hyper_response_parse_error_full_witness :
    (hyper_response ⟨some "lines=0-10", none⟩ "ct" "E" "f.zip"
      [1, 2, 3]).status = 200 ∧
    (hyper_response ⟨some "lines=0-10", none⟩ "ct" "E" "f.zip"
      [1, 2, 3]).body = [1, 2, 3] := by
  have h := hyper_response_parse_error_full "ct" "E" "f.zip" [1, 2, 3]
    "lines=0-10" none "invalid range unit" rfl
  exact ⟨h.1, h.2.2.2⟩

/-- **C7.** If the upstream response carries an `X-Zip-Stream` header (any
value), `handle_request` buffers its body in full and hands it to the
archive/manifest path; if the header is absent the upstream response is
returned verbatim. -/
theorem handle_request_zip_stream_dispatch (res : UpstreamResponse)
    (zr : String → Except (Nat × String) UpstreamResponse) :
    (hasZipStreamHeader res.headers = false →
      handle_request (.ok ()) (.ok res) zr = .ok res) ∧
    (hasZipStreamHeader res.headers = true →
      ∀ bytes, res.body = .ok bytes →
        handle_request (.ok ()) (.ok res) zr = zr bytes) := by
  constructor
  · intro hz
    simp [handle_request, hz]
  · intro hz bytes hb
    simp [handle_request, hz, hb]

/-- Witness for C7: a response with the `X-Zip-Stream` header is dispatched
to the archive path with its buffered body. -/
theorem handle_request_zip_stream_dispatch_witness :
    handle_request (.ok ()) (.ok ⟨200, [("X-Zip-Stream", "true")], .ok "m"⟩)
      (fun _ => .ok ⟨201, [], .ok "z"⟩) = .ok ⟨201, [], .ok "z"⟩ := by
  exact (handle_request_zip_stream_dispatch
    ⟨200, [("X-Zip-Stream", "true")], .ok "m"⟩
    (fun _ => .ok ⟨201, [], .ok "z"⟩)).2 rfl "m" rfl

/-- **C8.** A failed upstream connection yields status 503 with body exactly
`Upstream connection failed`; a failure while reading the manifest body of an
`X-Zip-Stream` response yields 503 with body exactly
`Upstream request failed`. -/
theorem handle_request_upstream_failures
    (zr : String → Except (Nat × String) UpstreamResponse) :
    (service_response (handle_request (.ok ()) (.error ()) zr) =
      ⟨503, [], .ok "Upstream connection failed"⟩) ∧
    (∀ res : UpstreamResponse, hasZipStreamHeader res.headers = true →
      res.body = .error () →
      service_response (handle_request (.ok ()) (.ok res) zr) =
        ⟨503, [], .ok "Upstream request failed"⟩) := by
  constructor
  · rfl
  · intro res hz hb
    simp [handle_request, service_response, hz, hb]

/-- Witness for C8: a body-read failure on an `X-Zip-Stream` response becomes
a 503 `Upstream request failed`. -/
theorem handle_request_upstream_failures_witness :
    service_response (handle_request (.ok ())
      (.ok ⟨200, [("X-Zip-Stream", "1")], .error ()⟩)
      (fun _ => .ok ⟨200, [], .ok "z"⟩)) =
      ⟨503, [], .ok "Upstream request failed"⟩ := by
  exact (handle_request_upstream_failures
    (fun _ => .ok ⟨200, [], .ok "z"⟩)).2
    ⟨200, [("X-Zip-Stream", "1")], .error ()⟩ rfl rfl

end Zipstream
